import Mathlib

/-!
Shallow embedding of the billboard-chain component declared in
extensions/Particle3D/src/Particle3D/PU/PUBillboardChain.h (namespace ax,
class PUBillboardChain).

The repository snapshot contains only the header: the data model (the
Element record, the ChainSegment ring descriptors with the SEGMENT_EMPTY
high-value sentinel, the flat element store shared by all chains, the
uint16_t index vector, the renderer state cache fields) and the public
method declarations are taken from that header.  The method bodies live in
a PUBillboardChain.cpp that is not part of the snapshot; every definition
whose body is reconstructed carries a doc comment starting with
Modelled from the spec, and is written to follow the specification text
(sections 3, 4.1, 4.2, 4.3 and 7 of spec.md).

Machine integers: chain bookkeeping uses size_t in the source; all reachable
values here are tiny compared to 2^64, so they are embedded as Nat, with the
single exception of the SEGMENT_EMPTY sentinel, which the header documents
as high-values and which is embedded as 2^64 - 1.  The uint16_t triangle
indices are embedded as Nat reduced modulo 2^16 at each store.  Wrap-around
ring arithmetic is expressed by conditional subtraction, which agrees with
the modulo arithmetic described by the spec on the in-range domain.
Floating point scalars (positions, widths, colours) are embedded as
rationals; no claim below depends on rounding.
-/

namespace ax

/-- Rational stand-in for the 2-component vector type of the math library
(an external collaborator per section 1 of the spec). -/
structure Vec2 where
  x : ℚ
  y : ℚ
  deriving DecidableEq, Inhabited

/-- Rational stand-in for the 3-component vector type of the math library. -/
structure Vec3 where
  x : ℚ
  y : ℚ
  z : ℚ
  deriving DecidableEq, Inhabited

/-- Rational stand-in for the 4-component vector type of the math library. -/
structure Vec4 where
  x : ℚ
  y : ℚ
  z : ℚ
  w : ℚ
  deriving DecidableEq, Inhabited

/-- Rational stand-in for the quaternion type of the math library. -/
structure Quaternion where
  x : ℚ
  y : ℚ
  z : ℚ
  w : ℚ
  deriving DecidableEq, Inhabited

namespace backend

/-- Depth compare functions of the renderer backend (header line 337 caches one). -/
inductive CompareFunction where
  | NEVER
  | LESS
  | LESS_EQUAL
  | GREATER
  | GREATER_EQUAL
  | EQUAL
  | NOT_EQUAL
  | ALWAYS
  deriving DecidableEq, Inhabited

/-- Cull modes of the renderer backend (header line 338 caches one). -/
inductive CullMode where
  | NONE
  | BACK
  | FRONT
  deriving DecidableEq, Inhabited

/-- Winding orders of the renderer backend (header line 339 caches one). -/
inductive Winding where
  | CLOCK_WISE
  | COUNTER_CLOCK_WISE
  deriving DecidableEq, Inhabited

end backend

/-- One element of a billboard chain, from the nested class
PUBillboardChain::Element (header lines 54 to 70): 3D position, scalar
width, one texture coordinate scalar, an RGBA colour and an orientation
quaternion. -/
structure PUBillboardChain.Element where
  position : Vec3
  width : ℚ
  texCoord : ℚ
  color : Vec4
  orientation : Quaternion
  deriving DecidableEq, Inhabited

/-- Direction in which the per-element texture coordinate runs, from the
TexCoordDirection enum (header lines 121 to 127). -/
inductive PUBillboardChain.TexCoordDirection where
  | TCD_U
  | TCD_V
  deriving DecidableEq, Inhabited

/-- Chain segment descriptor, from the nested struct ChainSegment (header
lines 298 to 306): the fixed start offset of this chains subset of the
shared element store, and the head and tail offsets relative to start.
Head and tail are inclusive and wrap at the per-chain capacity; when the
chain is empty both hold the SEGMENT_EMPTY high-value sentinel. -/
structure PUBillboardChain.ChainSegment where
  start : Nat
  head : Nat
  tail : Nat
  deriving DecidableEq, Inhabited

/-- The sentinel stored in head and tail of an empty chain segment.  The
header (line 296) documents that empty segments are filled with
high-values; the value is the largest size_t. -/
def PUBillboardChain.SEGMENT_EMPTY : Nat := 2 ^ 64 - 1

/-- Wrap-around vertex data produced by buffer synthesis, from the nested
struct VertexInfo (header lines 313 to 318). -/
structure PUBillboardChain.VertexInfo where
  position : Vec3
  uv : Vec2
  color : Vec4
  deriving DecidableEq, Inhabited

/-- The billboard-chain state: the data members of class PUBillboardChain
(header lines 256 to 308).  The flat element store and the segment list are
embedded as total functions from Nat; the operations only ever read them at
offsets inside the preallocated range maxElementsPerChain times chainCount
described by the spec (section 3).  Device-buffer handles, the mesh
command, texture and program state are external collaborators (spec
section 1) and are not part of the chain state embedded here. -/
structure PUBillboardChain where
  _maxElementsPerChain : Nat
  _chainCount : Nat
  _useTexCoords : Bool
  _useVertexColour : Bool
  _dynamic : Bool
  _vertexDeclDirty : Bool
  _indexContentDirty : Bool
  _vertexContentDirty : Bool
  _texCoordDir : PUBillboardChain.TexCoordDirection
  _otherTexCoordRange : ℚ × ℚ
  _faceCamera : Bool
  _normalBase : Vec3
  _chainElementList : Nat → PUBillboardChain.Element
  _chainSegmentList : Nat → PUBillboardChain.ChainSegment

namespace PUBillboardChain

/-- Error conditions of the error taxonomy in section 7 of the spec.  The
operations below return an Except value; returning an error models the
fail-fast policy (the operation aborts and no state is produced, so a
failed call mutates nothing). -/
inductive ChainError where
  | outOfRange
  deriving DecidableEq, Inhabited

/-- Modelled from the spec: wrap-around index reduction used whenever a
head-relative offset is turned into a store offset.  The segment subset
wraps at the per-chain capacity (header lines 294 to 296, spec section 3);
on the domain of in-range offsets, which never reach twice the capacity,
this conditional subtraction is the modulo reduction the spec describes. -/
def wrapIndex (m idx : Nat) : Nat :=
  if m ≤ idx then idx - m else idx

/-- Modelled from the spec: the number of live elements described by one
chain segment.  The body of getNumChainElements is not under src (only its
declaration, header line 199); the spec (section 4.1) says it computes the
wrapping distance between head and tail, 0 if empty, with head and tail
inclusive. -/
def segNum (m : Nat) (seg : ChainSegment) : Nat :=
  if seg.head = SEGMENT_EMPTY then 0
  else if seg.tail < seg.head then seg.tail + m - seg.head + 1
  else seg.tail - seg.head + 1

/-- The live elements of one segment, newest first: element i lives at
store offset start + wrap(head + i), for i below the wrapping distance
between head and tail (header lines 291 to 296, spec sections 3 and 4.1). -/
def segContents (m : Nat) (elems : Nat → Element) (seg : ChainSegment) : List Element :=
  (List.range (segNum m seg)).map fun i => elems (seg.start + wrapIndex m (seg.head + i))

/-- Modelled from the spec: body of getNumChainElements (declared at header
line 199). -/
def getNumChainElements (s : PUBillboardChain) (chainIndex : Nat) : Nat :=
  segNum s._maxElementsPerChain (s._chainSegmentList chainIndex)

/-- The observable content of one chain, newest (head) first. -/
def chainContents (s : PUBillboardChain) (chainIndex : Nat) : List Element :=
  segContents s._maxElementsPerChain s._chainElementList (s._chainSegmentList chainIndex)

/-- Modelled from the spec: the segment transition performed by
addChainElement (declared at header line 179).  Spec section 4.1: if the
chain was empty, head and tail become 0; otherwise head advances by one
position in the wrap-around range, and if this would make the chain exceed
the per-chain capacity the tail is advanced as well, dropping the oldest
element. -/
def addSeg (m : Nat) (seg : ChainSegment) : ChainSegment :=
  if seg.head = SEGMENT_EMPTY then { seg with head := 0, tail := 0 }
  else
    let newHead := if seg.head = 0 then m - 1 else seg.head - 1
    if newHead = seg.tail then
      { seg with head := newHead, tail := if seg.tail = 0 then m - 1 else seg.tail - 1 }
    else
      { seg with head := newHead }

/-- Modelled from the spec: body of addChainElement (declared at header
lines 171 to 179).  Inserts at the head of the chain, evicting the tail
element when the chain is full (header remark lines 172 to 175), storing
the new element at the new head position of the chains subset of the
shared store, and marking both content-dirty flags (spec section 4.1).
Fails with an OutOfRange condition when the chain index is out of bounds
(spec sections 4.1 and 7). -/
def addChainElement (s : PUBillboardChain) (chainIndex : Nat) (billboardChainElement : Element) :
    Except ChainError PUBillboardChain :=
  if s._chainCount ≤ chainIndex then .error .outOfRange
  else
    let seg2 := addSeg s._maxElementsPerChain (s._chainSegmentList chainIndex)
    .ok { s with
      _chainSegmentList := fun k => if k = chainIndex then seg2 else s._chainSegmentList k
      _chainElementList := fun k =>
        if k = seg2.start + seg2.head then billboardChainElement else s._chainElementList k
      _vertexContentDirty := true
      _indexContentDirty := true }

/-- Total wrapper around addChainElement: the successor state on success,
the unchanged state when the call was rejected. -/
def addOk (s : PUBillboardChain) (chainIndex : Nat) (e : Element) : PUBillboardChain :=
  match addChainElement s chainIndex e with
  | .ok s2 => s2
  | .error _ => s

/-- A whole sequence of addChainElement calls aimed at one chain, earliest
call first. -/
def applyAdds (s : PUBillboardChain) (chainIndex : Nat) (adds : List Element) : PUBillboardChain :=
  adds.foldl (fun st e => addOk st chainIndex e) s

/-- Modelled from the spec: the segment transition performed by
removeChainElement.  The tail (oldest element) retreats by one position in
the wrap-around range; removing the last element empties the segment. -/
def removeSeg (m : Nat) (seg : ChainSegment) : ChainSegment :=
  if seg.tail = seg.head then { seg with head := SEGMENT_EMPTY, tail := SEGMENT_EMPTY }
  else { seg with tail := if seg.tail = 0 then m - 1 else seg.tail - 1 }

/-- Modelled from the spec: body of removeChainElement (declared at header
lines 180 to 183).  Removes the oldest (tail) element; a benign no-op on an
already empty chain (spec sections 4.1 and 7, EmptyChain policy); fails
with OutOfRange when the chain index is out of bounds. -/
def removeChainElement (s : PUBillboardChain) (chainIndex : Nat) :
    Except ChainError PUBillboardChain :=
  if s._chainCount ≤ chainIndex then .error .outOfRange
  else if (s._chainSegmentList chainIndex).head = SEGMENT_EMPTY then .ok s
  else
    .ok { s with
      _chainSegmentList := fun k =>
        if k = chainIndex then removeSeg s._maxElementsPerChain (s._chainSegmentList chainIndex)
        else s._chainSegmentList k
      _vertexContentDirty := true
      _indexContentDirty := true }

/-- Total wrapper around removeChainElement, like addOk. -/
def removeOk (s : PUBillboardChain) (chainIndex : Nat) : PUBillboardChain :=
  match removeChainElement s chainIndex with
  | .ok s2 => s2
  | .error _ => s

/-- Modelled from the spec: body of updateChainElement (declared at header
lines 184 to 190).  The element index is measured from the head, 0 being
the newest element; the element data is overwritten in place at store
offset start + wrap(head + elementIndex) and the vertex content is marked
dirty.  Fails with OutOfRange when the chain index is out of bounds or the
element index is not below the current chain length (spec sections 4.1 and
7: indices are never silently clamped). -/
def updateChainElement (s : PUBillboardChain) (chainIndex elementIndex : Nat)
    (billboardChainElement : Element) : Except ChainError PUBillboardChain :=
  if s._chainCount ≤ chainIndex then .error .outOfRange
  else if getNumChainElements s chainIndex ≤ elementIndex then .error .outOfRange
  else
    let seg := s._chainSegmentList chainIndex
    let idx := seg.start + wrapIndex s._maxElementsPerChain (seg.head + elementIndex)
    .ok { s with
      _chainElementList := fun k => if k = idx then billboardChainElement else s._chainElementList k
      _vertexContentDirty := true }

/-- Modelled from the spec: body of getChainElement (declared at header
lines 191 to 196).  Read-only query of the element at the given
head-relative index; fails with OutOfRange outside the valid bounds. -/
def getChainElement (s : PUBillboardChain) (chainIndex elementIndex : Nat) :
    Except ChainError Element :=
  if s._chainCount ≤ chainIndex then .error .outOfRange
  else if getNumChainElements s chainIndex ≤ elementIndex then .error .outOfRange
  else
    let seg := s._chainSegmentList chainIndex
    .ok (s._chainElementList (seg.start + wrapIndex s._maxElementsPerChain (seg.head + elementIndex)))

/-- Modelled from the spec: body of clearChain (declared at header lines
201 to 202).  Resets the segment to the empty sentinel without shrinking
the backing store (spec section 4.1) and marks the content-dirty flags. -/
def clearChain (s : PUBillboardChain) (chainIndex : Nat) : Except ChainError PUBillboardChain :=
  if s._chainCount ≤ chainIndex then .error .outOfRange
  else
    .ok { s with
      _chainSegmentList := fun k =>
        if k = chainIndex then
          { s._chainSegmentList chainIndex with head := SEGMENT_EMPTY, tail := SEGMENT_EMPTY }
        else s._chainSegmentList k
      _vertexContentDirty := true
      _indexContentDirty := true }

/-- Total wrapper around clearChain, like addOk. -/
def clearOk (s : PUBillboardChain) (chainIndex : Nat) : PUBillboardChain :=
  match clearChain s chainIndex with
  | .ok s2 => s2
  | .error _ => s

/-- Modelled from the spec: body of clearAllChains (declared at header
lines 203 to 204).  Every segment is reset to the empty sentinel. -/
def clearAllChains (s : PUBillboardChain) : PUBillboardChain :=
  { s with
    _chainSegmentList := fun k =>
      { s._chainSegmentList k with head := SEGMENT_EMPTY, tail := SEGMENT_EMPTY }
    _vertexContentDirty := true
    _indexContentDirty := true }

/-- Modelled from the spec: body of setupChainContainers (declared at
header line 239).  Rebuilds the shared element store, sized capacity times
chain count, and one empty segment per chain with its fixed start offset
chainIndex times capacity (spec section 3 and 9). -/
def setupChainContainers (s : PUBillboardChain) : PUBillboardChain :=
  { s with
    _chainElementList := fun _ => default
    _chainSegmentList := fun i =>
      { start := i * s._maxElementsPerChain, head := SEGMENT_EMPTY, tail := SEGMENT_EMPTY } }

/-- Modelled from the spec: the constructor (header lines 81 to 87) stores
the configuration and sets up the chain containers; every chain starts
empty.  The name and texture file arguments only feed external
collaborators and are omitted. -/
def mkPUBillboardChain (maxElements numberOfChains : Nat)
    (useTextureCoords useColours dynamic : Bool) : PUBillboardChain :=
  setupChainContainers
    { _maxElementsPerChain := maxElements
      _chainCount := numberOfChains
      _useTexCoords := useTextureCoords
      _useVertexColour := useColours
      _dynamic := dynamic
      _vertexDeclDirty := true
      _indexContentDirty := true
      _vertexContentDirty := true
      _texCoordDir := .TCD_U
      _otherTexCoordRange := (0, 1)
      _faceCamera := true
      _normalBase := { x := 1, y := 0, z := 0 }
      _chainElementList := fun _ => default
      _chainSegmentList := fun _ => default }

/-- True when the generated vertices still have a colour source: texture
coordinates or vertex colours (header notes at lines 108 to 110 and 151 to
153). -/
def hasColourSource (s : PUBillboardChain) : Bool :=
  s._useTexCoords || s._useVertexColour

/-- Modelled from the spec: body of setUseTextureCoords (declared at header
lines 106 to 112).  Section 7 of the spec requires that a configuration
with neither texture coordinates nor vertex colours be rejected or
auto-corrected with a single documented fallback, naming force vertex
colour on as that fallback; disabling texture coordinates while vertex
colours are off therefore force-enables vertex colours.  The vertex
declaration becomes dirty (spec section 4.1). -/
def setUseTextureCoords (s : PUBillboardChain) (use : Bool) : PUBillboardChain :=
  if !use && !s._useVertexColour then
    { s with _useTexCoords := use, _useVertexColour := true, _vertexDeclDirty := true }
  else
    { s with _useTexCoords := use, _vertexDeclDirty := true }

/-- Modelled from the spec: body of setUseVertexColours (declared at header
lines 149 to 155).  With the same single fallback as setUseTextureCoords,
disabling vertex colours while texture coordinates are off is rejected:
vertex colours stay force-enabled. -/
def setUseVertexColours (s : PUBillboardChain) (use : Bool) : PUBillboardChain :=
  if !use && !s._useTexCoords then
    { s with _useVertexColour := true, _vertexDeclDirty := true }
  else
    { s with _useVertexColour := use, _vertexDeclDirty := true }

/-- Modelled from the spec: the store slots at which one chains vertices
are written during vertex-buffer synthesis.  Each live element, walked in
head-to-tail order, occupies the two vertex slots 2p and 2p + 1 where p is
its offset in the shared element store, so the derived buffer is sized for
the worst case of capacity times chain count times 2 vertices (spec
sections 3 and 4.2). -/
def segVertexSlots (m : Nat) (seg : ChainSegment) : List Nat :=
  ((List.range (segNum m seg)).map fun i =>
    let p := seg.start + wrapIndex m (seg.head + i)
    [p * 2, p * 2 + 1]).flatten

/-- Modelled from the spec: the vertex writes performed for one chain by
updateVertexBuffer, as slot-value pairs.  The per-element geometry (the
two vertices straddling the centerline, camera-facing or
orientation-facing, with colour and texture coordinates, spec section 4.2
steps 1 to 3) is floating-point camera-dependent math and is abstracted as
the vertexPair argument; the walk and the slot layout are the modelled
loop. -/
def segVertexWrites (m : Nat) (elems : Nat → Element) (seg : ChainSegment)
    (vertexPair : Element → VertexInfo × VertexInfo) : List (Nat × VertexInfo) :=
  ((List.range (segNum m seg)).map fun i =>
    let p := seg.start + wrapIndex m (seg.head + i)
    [(p * 2, (vertexPair (elems p)).1), (p * 2 + 1, (vertexPair (elems p)).2)]).flatten

/-- Modelled from the spec: body of updateVertexBuffer (declared at header
line 245), as the sequence of vertex writes it performs: two vertices per
live element, chain after chain (spec section 4.2 step 1 and the vertex
count invariant of section 8). -/
def updateVertexBuffer (s : PUBillboardChain)
    (vertexPair : Element → VertexInfo × VertexInfo) : List (Nat × VertexInfo) :=
  ((List.range s._chainCount).map fun c =>
    segVertexWrites s._maxElementsPerChain s._chainElementList (s._chainSegmentList c)
      vertexPair).flatten

/-- Total number of live elements across all chains. -/
def totalElements (s : PUBillboardChain) : Nat :=
  ((List.range s._chainCount).map fun c => getNumChainElements s c).sum

/-- Modelled from the spec: the triangle indices emitted for one chain,
before the narrowing store into the uint16_t index vector.  Two triangles
per consecutive element pair, referencing the two vertex slots of each of
the two elements; chains do not connect to each other (spec section 4.2
steps 4 and 5: a chain with fewer than two live elements produces no
triangles). -/
def segIndices (m : Nat) (seg : ChainSegment) : List Nat :=
  ((List.range (segNum m seg - 1)).map fun k =>
    let last := seg.start + wrapIndex m (seg.head + k)
    let cur := seg.start + wrapIndex m (seg.head + k + 1)
    [last * 2, last * 2 + 1, cur * 2, last * 2 + 1, cur * 2 + 1, cur * 2]).flatten

/-- The ideal (unbounded) index sequence produced by index-buffer
synthesis, chain after chain. -/
def updateIndexBufferNat (s : PUBillboardChain) : List Nat :=
  ((List.range s._chainCount).map fun c =>
    segIndices s._maxElementsPerChain (s._chainSegmentList c)).flatten

/-- Modelled from the spec: the triangle indices emitted for one chain as
actually stored.  The header (line 327) declares the index store as a
vector of uint16_t, so every stored value is the emitted vertex slot
reduced modulo 2^16. -/
def segIndicesU16 (m : Nat) (seg : ChainSegment) : List Nat :=
  ((List.range (segNum m seg - 1)).map fun k =>
    let last := seg.start + wrapIndex m (seg.head + k)
    let cur := seg.start + wrapIndex m (seg.head + k + 1)
    [last * 2 % 65536, (last * 2 + 1) % 65536, cur * 2 % 65536,
      (last * 2 + 1) % 65536, (cur * 2 + 1) % 65536, cur * 2 % 65536]).flatten

/-- Modelled from the spec: body of updateIndexBuffer (declared at header
line 247), as the uint16_t values stored into the index vector (header
lines 323 and 327). -/
def updateIndexBuffer (s : PUBillboardChain) : List Nat :=
  ((List.range s._chainCount).map fun c =>
    segIndicesU16 s._maxElementsPerChain (s._chainSegmentList c)).flatten

/-- The renderer settings this component overrides and restores: depth
test enable, depth compare function, cull mode, winding and depth write
(the settings cached at header lines 336 to 340). -/
structure RendererSettings where
  depthTestEnabled : Bool
  depthCmpFunc : backend.CompareFunction
  cullMode : backend.CullMode
  winding : backend.Winding
  depthWrite : Bool
  deriving DecidableEq, Inhabited

/-- The renderer state cache data members of PUBillboardChain (header
lines 335 to 340). -/
structure RendererStateCache where
  _rendererDepthTestEnabled : Bool
  _rendererDepthCmpFunc : backend.CompareFunction
  _rendererCullMode : backend.CullMode
  _rendererWinding : backend.Winding
  _rendererDepthWrite : Bool
  deriving DecidableEq, Inhabited

/-- One draw submitted to the renderer, with the settings in effect when
it executes. -/
structure DrawCall where
  vertexCount : Nat
  indexCount : Nat
  settings : RendererSettings
  deriving DecidableEq, Inhabited

/-- Modelled from the spec: body of onBeforeDraw (declared at header line
252).  Saves every renderer setting it is about to override into the state
cache fields, then applies the override settings. -/
def onBeforeDraw (r overrides : RendererSettings) : RendererStateCache × RendererSettings :=
  ({ _rendererDepthTestEnabled := r.depthTestEnabled
     _rendererDepthCmpFunc := r.depthCmpFunc
     _rendererCullMode := r.cullMode
     _rendererWinding := r.winding
     _rendererDepthWrite := r.depthWrite }, overrides)

/-- Modelled from the spec: body of onAfterDraw (declared at header line
254).  Writes every cached setting back to the renderer. -/
def onAfterDraw (cache : RendererStateCache) : RendererSettings :=
  { depthTestEnabled := cache._rendererDepthTestEnabled
    depthCmpFunc := cache._rendererDepthCmpFunc
    cullMode := cache._rendererCullMode
    winding := cache._rendererWinding
    depthWrite := cache._rendererDepthWrite }

/-- Modelled from the spec: body of render (declared at header line 228),
restricted to draw submission and renderer state handling (spec section
4.3).  Buffers are brought up to date by the synthesis above; when either
buffer is empty no draw is submitted and the renderer is untouched;
otherwise the renderer state is saved, overridden for the draw, and
restored after it (save-modify-restore).  The function returns the
submitted draws and the renderer settings left behind. -/
def render (s : PUBillboardChain) (vertexPair : Element → VertexInfo × VertexInfo)
    (r overrides : RendererSettings) : List DrawCall × RendererSettings :=
  let verts := updateVertexBuffer s vertexPair
  let inds := updateIndexBuffer s
  if verts.length = 0 ∨ inds.length = 0 then ([], r)
  else
    let saved := onBeforeDraw r overrides
    ([{ vertexCount := verts.length, indexCount := inds.length, settings := saved.2 }],
      onAfterDraw saved.1)

/-- Well-formedness of one chain segment: its start offset is the fixed
chainIndex times capacity (spec sections 3 and 9), and head and tail are
either both the empty sentinel or both inside the wrap range (header
invariant, spec section 3). -/
def SegWF (m : Nat) (c : Nat) (seg : ChainSegment) : Prop :=
  seg.start = c * m ∧
    ((seg.head = SEGMENT_EMPTY ∧ seg.tail = SEGMENT_EMPTY) ∨ (seg.head < m ∧ seg.tail < m))

/-- Well-formedness of the whole chain state: positive capacity (the
source defaults to 20 and size_t keeps it below the sentinel) and a
well-formed segment for every chain index. -/
def WF (s : PUBillboardChain) : Prop :=
  0 < s._maxElementsPerChain ∧ s._maxElementsPerChain ≤ SEGMENT_EMPTY ∧
    ∀ c, c < s._chainCount → SegWF s._maxElementsPerChain c (s._chainSegmentList c)

/-- A concrete sample element, used by the witness instances below. -/
def sampleElement (n : ℚ) : Element :=
  { position := { x := n, y := 0, z := 0 }
    width := 1
    texCoord := 0
    color := { x := 1, y := 1, z := 1, w := 1 }
    orientation := { x := 0, y := 0, z := 0, w := 1 } }

/-- The add sequence of the spec scenario: elements E1, E2, E3, E4. -/
def scenarioAdds : List Element :=
  [sampleElement 1, sampleElement 2, sampleElement 3, sampleElement 4]

/-- A concrete state with one chain of capacity 3 holding one element. -/
def sampleState1 : PUBillboardChain :=
  addOk (mkPUBillboardChain 3 1 true true true) 0 (sampleElement 1)

/-- A concrete state with two chains of capacity 5, each holding elements,
used to witness chain isolation. -/
def sampleState2 : PUBillboardChain :=
  addOk (addOk (addOk (mkPUBillboardChain 5 2 true true true) 0 (sampleElement 1))
    1 (sampleElement 2)) 1 (sampleElement 3)

/-- A concrete sample vertex-pair function for the abstracted per-element
geometry: both vertices sit at the element position and carry its colour. -/
def sampleVertexPair (e : Element) : VertexInfo × VertexInfo :=
  ({ position := e.position, uv := { x := e.texCoord, y := 0 }, color := e.color },
   { position := e.position, uv := { x := e.texCoord, y := 1 }, color := e.color })

/-- Concrete renderer settings used by the render witness. -/
def sampleRendererSettings : RendererSettings :=
  { depthTestEnabled := true
    depthCmpFunc := .LESS
    cullMode := .BACK
    winding := .COUNTER_CLOCK_WISE
    depthWrite := false }

/-- Concrete override settings used by the render witness. -/
def sampleOverrides : RendererSettings :=
  { depthTestEnabled := true
    depthCmpFunc := .LESS_EQUAL
    cullMode := .NONE
    winding := .COUNTER_CLOCK_WISE
    depthWrite := true }

/-- A directly described state whose vertex slots exceed the uint16_t
range: one chain of capacity 40000 whose two live elements sit at ring
positions 32768 and 32769, exactly the state reached by adding 32770
elements to the chain.  Its vertex slots start at 65536. -/
def wideState : PUBillboardChain :=
  { mkPUBillboardChain 40000 1 true true true with
    _chainSegmentList := fun _ => { start := 0, head := 32768, tail := 32769 } }

end PUBillboardChain

end ax

namespace ax

namespace PUBillboardChain

/-- The length of the observable chain content is the reported element
count. -/
theorem length_chainContents (s : PUBillboardChain) (c : Nat) :
    (chainContents s c).length = getNumChainElements s c := by
  simp [chainContents, segContents, getNumChainElements]

/-- A reported element count never exceeds the capacity, for a well-formed
segment. -/
theorem segNum_le (m : Nat) (c : Nat) (seg : ChainSegment) (hm : 0 < m)
    (hseg : SegWF m c seg) : segNum m seg ≤ m := by
  obtain ⟨-, ⟨h1, h2⟩ | ⟨h1, h2⟩⟩ := hseg
  · simp [segNum, h1]
  · unfold segNum
    split
    · omega
    · split <;> omega

/-- An element count of zero is exactly the empty sentinel. -/
theorem segNum_eq_zero (m : Nat) (seg : ChainSegment) :
    segNum m seg = 0 ↔ seg.head = SEGMENT_EMPTY := by
  unfold segNum
  split
  · simp [*]
  · split <;> omega

/-- Closed form of segNum for a non-empty segment. -/
theorem segNum_of_ne (m : Nat) (seg : ChainSegment) (hne : seg.head ≠ SEGMENT_EMPTY) :
    segNum m seg =
      if seg.tail < seg.head then seg.tail + m - seg.head + 1 else seg.tail - seg.head + 1 := by
  rw [segNum, if_neg hne]

/-- The wrap of a retreated head advanced by a successor offset lands on
the wrap of the old head advanced by the predecessor offset. -/
theorem wrapIndex_pred_succ (m h j : Nat) (hm : 0 < m) (hh : h < m) (hjm : j < m) :
    wrapIndex m ((if h = 0 then m - 1 else h - 1) + (j + 1)) = wrapIndex m (h + j) := by
  unfold wrapIndex
  split_ifs <;> omega

/-- Offsets of surviving elements never collide with the retreated head
position, as long as the offset leaves room for the new element. -/
theorem wrapIndex_ne_pred (m h j : Nat) (hm : 0 < m) (hh : h < m) (hj2 : j + 2 ≤ m) :
    wrapIndex m (h + j) ≠ (if h = 0 then m - 1 else h - 1) := by
  unfold wrapIndex
  split_ifs <;> omega

/-- The wrap of an in-range offset is itself. -/
theorem wrapIndex_of_lt (m x : Nat) (hx : x < m) : wrapIndex m x = x := by
  unfold wrapIndex
  rw [if_neg (by omega)]

/-- Key step for the FIFO claims: one addChainElement step, at segment
level, prepends the new element to the observable content and truncates to
the capacity, exactly the behaviour of a capped stack-of-newest (spec
section 4.1). -/
theorem segContents_addSeg (m : Nat) (elems : Nat → Element) (seg : ChainSegment) (e : Element)
    (hm : 0 < m) (hE : m ≤ SEGMENT_EMPTY)
    (hseg : (seg.head = SEGMENT_EMPTY ∧ seg.tail = SEGMENT_EMPTY) ∨
      (seg.head < m ∧ seg.tail < m)) :
    segContents m
        (fun k => if k = (addSeg m seg).start + (addSeg m seg).head then e else elems k)
        (addSeg m seg) =
      (e :: segContents m elems seg).take m := by
  have hEpos : 0 < SEGMENT_EMPTY := by decide
  rcases hseg with ⟨h1, h2⟩ | ⟨h1, h2⟩
  · -- the chain was empty: content becomes the single new element
    have hold : segNum m seg = 0 := by rw [segNum, if_pos h1]
    unfold addSeg
    rw [if_pos h1]
    unfold segContents
    rw [hold]
    have hnew : segNum m { seg with head := 0, tail := 0 } = 1 := by
      rw [segNum_of_ne m _ (by dsimp only; omega)]
      simp
    rw [hnew]
    rw [List.take_of_length_le (by simp; omega)]
    simp [wrapIndex, List.range_succ, show ¬ m ≤ 0 by omega]
  · -- the chain was not empty
    have hne : seg.head ≠ SEGMENT_EMPTY := by omega
    have hLval : segNum m seg =
        if seg.tail < seg.head then seg.tail + m - seg.head + 1
        else seg.tail - seg.head + 1 := segNum_of_ne m seg hne
    unfold addSeg
    rw [if_neg hne]
    simp only []
    by_cases hfull : (if seg.head = 0 then m - 1 else seg.head - 1) = seg.tail
    · -- the chain was full: the oldest element is evicted
      rw [if_pos hfull]
      have hL : segNum m seg = m := by
        rw [hLval]
        by_cases h0 : seg.head = 0
        · rw [if_pos h0] at hfull
          split_ifs <;> omega
        · rw [if_neg h0] at hfull
          split_ifs <;> omega
      have hLnew : segNum m
          (ChainSegment.mk seg.start (if seg.head = 0 then m - 1 else seg.head - 1)
            (if seg.tail = 0 then m - 1 else seg.tail - 1)) = m := by
        rw [segNum_of_ne m _ (by dsimp only; split_ifs <;> omega)]
        dsimp only
        rw [hfull]
        split_ifs <;> omega
      apply List.ext_getElem
      · simp only [segContents, List.length_map, List.length_range, List.length_take,
          List.length_cons]
        rw [hLnew, hL]
        omega
      · intro i hi1 hi2
        have hi2m : i < m := by
          simp only [List.length_take, List.length_cons, segContents, List.length_map,
            List.length_range] at hi2
          omega
        simp only [segContents, List.getElem_map, List.getElem_range, List.getElem_take]
        rcases i with _ | j
        · rw [List.getElem_cons_zero]
          rw [Nat.add_zero, wrapIndex_of_lt m _ (by split_ifs <;> omega)]
          simp
        · rw [List.getElem_cons_succ]
          simp only [segContents, List.getElem_map, List.getElem_range]
          rw [wrapIndex_pred_succ m seg.head j hm h1 (by omega)]
          rw [if_neg (by
            have := wrapIndex_ne_pred m seg.head j hm h1 (by omega)
            omega)]
    · -- the chain was not full: nothing is evicted
      rw [if_neg hfull]
      have hLlt : segNum m seg < m := by
        rw [hLval]
        by_cases h0 : seg.head = 0
        · rw [if_pos h0] at hfull
          split_ifs <;> omega
        · rw [if_neg h0] at hfull
          split_ifs <;> omega
      have hLnew : segNum m
          (ChainSegment.mk seg.start (if seg.head = 0 then m - 1 else seg.head - 1) seg.tail) =
          segNum m seg + 1 := by
        rw [segNum_of_ne m _ (by dsimp only; split_ifs <;> omega)]
        dsimp only
        rw [hLval]
        by_cases h0 : seg.head = 0
        · rw [if_pos h0] at hfull
          split_ifs <;> omega
        · rw [if_neg h0] at hfull
          split_ifs <;> omega
      apply List.ext_getElem
      · simp only [segContents, List.length_map, List.length_range, List.length_take,
          List.length_cons]
        rw [hLnew]
        omega
      · intro i hi1 hi2
        have hi1' : i < segNum m seg + 1 := by
          simp only [segContents, List.length_map, List.length_range] at hi1
          rw [hLnew] at hi1
          exact hi1
        simp only [segContents, List.getElem_map, List.getElem_range, List.getElem_take]
        rcases i with _ | j
        · rw [List.getElem_cons_zero]
          rw [Nat.add_zero, wrapIndex_of_lt m _ (by split_ifs <;> omega)]
          simp
        · rw [List.getElem_cons_succ]
          simp only [segContents, List.getElem_map, List.getElem_range]
          rw [wrapIndex_pred_succ m seg.head j hm h1 (by omega)]
          rw [if_neg (by
            have := wrapIndex_ne_pred m seg.head j hm h1 (by omega)
            omega)]

/-- addSeg preserves segment well-formedness. -/
theorem addSeg_WF (m c : Nat) (seg : ChainSegment) (hm : 0 < m) (hE : m ≤ SEGMENT_EMPTY)
    (hseg : SegWF m c seg) : SegWF m c (addSeg m seg) := by
  obtain ⟨hstart, hdisj⟩ := hseg
  unfold SegWF addSeg
  rcases hdisj with ⟨ha, hb⟩ | ⟨ha, hb⟩
  · rw [if_pos ha]
    exact ⟨hstart, Or.inr ⟨hm, hm⟩⟩
  · rw [if_neg (show seg.head ≠ SEGMENT_EMPTY by omega)]
    simp only []
    split_ifs <;> exact ⟨hstart, Or.inr ⟨by dsimp only; omega, by dsimp only; omega⟩⟩

/-- addOk preserves the capacity field. -/
theorem addOk_max (s : PUBillboardChain) (c : Nat) (e : Element) :
    (addOk s c e)._maxElementsPerChain = s._maxElementsPerChain := by
  by_cases hc : s._chainCount ≤ c <;> simp [addOk, addChainElement, hc]

/-- addOk preserves the chain count. -/
theorem addOk_count (s : PUBillboardChain) (c : Nat) (e : Element) :
    (addOk s c e)._chainCount = s._chainCount := by
  by_cases hc : s._chainCount ≤ c <;> simp [addOk, addChainElement, hc]

/-- A rejected add leaves the state untouched. -/
theorem addOk_oob (s : PUBillboardChain) (c : Nat) (e : Element) (hc : s._chainCount ≤ c) :
    addOk s c e = s := by
  simp [addOk, addChainElement, hc]

/-- The segment list after a successful add. -/
theorem addOk_segs_apply (s : PUBillboardChain) (c : Nat) (e : Element) (k : Nat)
    (hc : c < s._chainCount) :
    (addOk s c e)._chainSegmentList k =
      if k = c then addSeg s._maxElementsPerChain (s._chainSegmentList c)
      else s._chainSegmentList k := by
  simp [addOk, addChainElement, show ¬ s._chainCount ≤ c by omega]

/-- The element store after a successful add. -/
theorem addOk_elems (s : PUBillboardChain) (c : Nat) (e : Element) (hc : c < s._chainCount) :
    (addOk s c e)._chainElementList = fun k =>
      if k = (addSeg s._maxElementsPerChain (s._chainSegmentList c)).start +
          (addSeg s._maxElementsPerChain (s._chainSegmentList c)).head then e
      else s._chainElementList k := by
  simp [addOk, addChainElement, show ¬ s._chainCount ≤ c by omega]

/-- addOk preserves state well-formedness. -/
theorem addOk_WF (s : PUBillboardChain) (c : Nat) (e : Element) (hwf : WF s) :
    WF (addOk s c e) := by
  by_cases hc : c < s._chainCount
  · obtain ⟨hm, hE, hsegs⟩ := hwf
    refine ⟨?_, ?_, ?_⟩
    · rw [addOk_max]
      exact hm
    · rw [addOk_max]
      exact hE
    · intro c2 hc2
      rw [addOk_count] at hc2
      rw [addOk_segs_apply s c e c2 hc, addOk_max]
      by_cases hcc : c2 = c
      · subst hcc
        rw [if_pos rfl]
        exact addSeg_WF _ _ _ hm hE (hsegs c2 hc2)
      · rw [if_neg hcc]
        exact hsegs c2 hc2
  · rw [addOk_oob s c e (by omega)]
    exact hwf

/-- One successful addChainElement prepends the new element to the
observable chain content and truncates at the capacity. -/
theorem chainContents_addOk (s : PUBillboardChain) (c : Nat) (e : Element) (hwf : WF s)
    (hc : c < s._chainCount) :
    chainContents (addOk s c e) c = (e :: chainContents s c).take s._maxElementsPerChain := by
  obtain ⟨hm, hE, hsegs⟩ := hwf
  unfold chainContents
  rw [addOk_max, addOk_elems s c e hc, addOk_segs_apply s c e c hc, if_pos rfl]
  exact segContents_addSeg s._maxElementsPerChain s._chainElementList (s._chainSegmentList c) e
    hm hE (hsegs c hc).2

/-- Truncating an appended truncation collapses to one truncation. -/
theorem take_append_take {α : Type} (a b : List α) (n m2 : Nat) (h : m2 ≤ n) :
    (a ++ b.take n).take m2 = (a ++ b).take m2 := by
  induction a generalizing m2 with
  | nil =>
    simp [List.take_take, Nat.min_eq_left h]
  | cons x xs ih =>
    cases m2 with
    | zero => simp
    | succ k =>
      simp only [List.cons_append, List.take_succ_cons]
      rw [ih k (by omega)]

/-- Folding a whole sequence of adds into one chain: the observable
content is the reversed add sequence in front of the old content,
truncated at the capacity, and well-formedness plus the configuration
fields are preserved. -/
theorem applyAdds_spec (adds : List Element) (s : PUBillboardChain) (c : Nat)
    (hwf : WF s) (hc : c < s._chainCount) :
    WF (applyAdds s c adds) ∧
      (applyAdds s c adds)._maxElementsPerChain = s._maxElementsPerChain ∧
      (applyAdds s c adds)._chainCount = s._chainCount ∧
      chainContents (applyAdds s c adds) c =
        (adds.reverse ++ chainContents s c).take s._maxElementsPerChain := by
  induction adds generalizing s with
  | nil =>
    refine ⟨hwf, rfl, rfl, ?_⟩
    simp only [applyAdds, List.foldl_nil, List.reverse_nil, List.nil_append]
    rw [List.take_of_length_le (by
      rw [length_chainContents]
      exact segNum_le _ _ _ hwf.1 (hwf.2.2 c hc))]
  | cons x xs ih =>
    have hwf2 := addOk_WF s c x hwf
    have hc2 : c < (addOk s c x)._chainCount := by
      rw [addOk_count]
      exact hc
    obtain ⟨w1, w2, w3, w4⟩ := ih (addOk s c x) hwf2 hc2
    have hstep : applyAdds s c (x :: xs) = applyAdds (addOk s c x) c xs := rfl
    refine ⟨?_, ?_, ?_, ?_⟩
    · rw [hstep]
      exact w1
    · rw [hstep, w2, addOk_max]
    · rw [hstep, w3, addOk_count]
    · rw [hstep, w4, addOk_max, chainContents_addOk s c x hwf hc]
      rw [take_append_take _ _ s._maxElementsPerChain s._maxElementsPerChain (Nat.le_refl _)]
      rw [List.reverse_cons, List.append_assoc]
      rfl

/-- A freshly constructed chain object is well-formed. -/
theorem WF_mk (maxElements numberOfChains : Nat) (tex col dyn : Bool) (hm : 0 < maxElements)
    (hE : maxElements ≤ SEGMENT_EMPTY) :
    WF (mkPUBillboardChain maxElements numberOfChains tex col dyn) := by
  refine ⟨hm, hE, ?_⟩
  intro c hc
  exact ⟨rfl, Or.inl ⟨rfl, rfl⟩⟩

/-- Every chain of a freshly constructed object is empty. -/
theorem chainContents_mk (maxElements numberOfChains : Nat) (tex col dyn : Bool) (c : Nat) :
    chainContents (mkPUBillboardChain maxElements numberOfChains tex col dyn) c = [] := by
  simp [chainContents, mkPUBillboardChain, setupChainContainers, segContents, segNum]

/-- A successful bounds-checked read returns the element of the observable
chain content at the requested head-relative index. -/
theorem getChainElement_ok (s : PUBillboardChain) (c i : Nat) (hc : c < s._chainCount)
    (hi : i < getNumChainElements s c) :
    getChainElement s c i = Except.ok ((chainContents s c).getD i default) := by
  unfold getChainElement
  rw [if_neg (by omega), if_neg (by omega)]
  have hlen : i < (chainContents s c).length := by
    rw [length_chainContents]
    exact hi
  rw [List.getD_eq_getElem?_getD, List.getElem?_eq_getElem hlen]
  simp [chainContents, segContents]

/-- C1: for every chain index below the chain count and every sequence of
addChainElement calls aimed at that chain, starting from a freshly
constructed object, the chain length never exceeds the per-chain capacity,
and the surviving content is exactly the most recent adds in
newest-to-oldest order: FIFO eviction of the oldest elements, order
preserved.  The spec scenario (capacity 3, one chain, adding E1 E2 E3 E4
leaving E4 E3 E2) is the witness instance below. -/
theorem C1_add_cap_and_fifo_eviction (maxElements numberOfChains : Nat)
    (useTextureCoords useColours dynamic : Bool) (c : Nat) (adds : List Element)
    (hm : 0 < maxElements) (hE : maxElements ≤ SEGMENT_EMPTY) (hc : c < numberOfChains) :
    getNumChainElements
        (applyAdds (mkPUBillboardChain maxElements numberOfChains useTextureCoords useColours
          dynamic) c adds) c ≤ maxElements ∧
      chainContents
        (applyAdds (mkPUBillboardChain maxElements numberOfChains useTextureCoords useColours
          dynamic) c adds) c = adds.reverse.take maxElements := by
  have hwf := WF_mk maxElements numberOfChains useTextureCoords useColours dynamic hm hE
  obtain ⟨w1, w2, w3, w4⟩ := applyAdds_spec adds _ c hwf hc
  have hmax : (mkPUBillboardChain maxElements numberOfChains useTextureCoords useColours
      dynamic)._maxElementsPerChain = maxElements := rfl
  rw [hmax] at w4
  rw [chainContents_mk maxElements numberOfChains useTextureCoords useColours dynamic c,
    List.append_nil] at w4
  constructor
  · rw [← length_chainContents, w4]
    simp only [List.length_take]
    omega
  · exact w4

/-- Witness for C1 at the spec scenario: capacity 3, one chain, adding
E1, E2, E3, E4 keeps the count at 3 and leaves exactly E4, E3, E2. -/
theorem C1_add_cap_and_fifo_eviction_witness :
    (0:Nat) < 3 ∧ (3:Nat) ≤ SEGMENT_EMPTY ∧ 0 < 1 ∧
      (getNumChainElements (applyAdds (mkPUBillboardChain 3 1 true true true) 0 scenarioAdds) 0
          ≤ 3 ∧
        chainContents (applyAdds (mkPUBillboardChain 3 1 true true true) 0 scenarioAdds) 0 =
          scenarioAdds.reverse.take 3) ∧
      chainContents (applyAdds (mkPUBillboardChain 3 1 true true true) 0 scenarioAdds) 0 =
        [sampleElement 4, sampleElement 3, sampleElement 2] :=
  ⟨by decide, by decide, by decide,
    C1_add_cap_and_fifo_eviction 3 1 true true true 0 scenarioAdds (by decide) (by decide)
      (by decide),
    by decide⟩

/-- C3: adding at most capacity many elements to an initially empty chain
and then reading the elements from the head returns them in reverse
insertion order: the most recently added element is at element index 0 and
the first added element is at the last index. -/
theorem C3_reverse_insertion_order (maxElements numberOfChains : Nat)
    (useTextureCoords useColours dynamic : Bool) (c : Nat) (adds : List Element) (i : Nat)
    (hm : 0 < maxElements) (hE : maxElements ≤ SEGMENT_EMPTY) (hc : c < numberOfChains)
    (hlen : adds.length ≤ maxElements) (hi : i < adds.length) :
    getChainElement
        (applyAdds (mkPUBillboardChain maxElements numberOfChains useTextureCoords useColours
          dynamic) c adds) c i =
      Except.ok (adds.reverse.getD i default) := by
  have hwf := WF_mk maxElements numberOfChains useTextureCoords useColours dynamic hm hE
  obtain ⟨w1, w2, w3, w4⟩ := applyAdds_spec adds _ c hwf hc
  have hmax : (mkPUBillboardChain maxElements numberOfChains useTextureCoords useColours
      dynamic)._maxElementsPerChain = maxElements := rfl
  rw [hmax] at w4
  rw [chainContents_mk maxElements numberOfChains useTextureCoords useColours dynamic c,
    List.append_nil] at w4
  rw [List.take_of_length_le (by simp [hlen])] at w4
  have hcx : c < (applyAdds (mkPUBillboardChain maxElements numberOfChains useTextureCoords
      useColours dynamic) c adds)._chainCount := by
    rw [w3]
    exact hc
  have hnum : getNumChainElements (applyAdds (mkPUBillboardChain maxElements numberOfChains
      useTextureCoords useColours dynamic) c adds) c = adds.length := by
    rw [← length_chainContents, w4, List.length_reverse]
  rw [getChainElement_ok _ c i hcx (by rw [hnum]; exact hi), w4]

/-- Witness for C3 at a concrete input: adding E1, E2, E3 to a chain of
capacity 3 and reading element 0 returns E3, the most recently added. -/
theorem C3_reverse_insertion_order_witness :
    getChainElement (applyAdds (mkPUBillboardChain 3 1 true true true) 0
        [sampleElement 1, sampleElement 2, sampleElement 3]) 0 0 =
      Except.ok (([sampleElement 1, sampleElement 2, sampleElement 3]).reverse.getD 0 default) :=
  C3_reverse_insertion_order 3 1 true true true 0
    [sampleElement 1, sampleElement 2, sampleElement 3] 0 (by decide) (by decide) (by decide)
    (by decide) (by decide)

/-- removeSeg drops exactly one element from the reported count. -/
theorem segNum_removeSeg (m : Nat) (seg : ChainSegment) (hm : 0 < m)
    (hne : seg.head ≠ SEGMENT_EMPTY) (h1 : seg.head < m) (h2 : seg.tail < m) :
    segNum m (removeSeg m seg) = segNum m seg - 1 := by
  unfold removeSeg
  by_cases ht : seg.tail = seg.head
  · rw [if_pos ht]
    have hz : segNum m (ChainSegment.mk seg.start SEGMENT_EMPTY SEGMENT_EMPTY) = 0 := by
      unfold segNum
      rw [if_pos rfl]
    have hL : segNum m seg = 1 := by
      rw [segNum_of_ne m seg hne]
      split_ifs <;> omega
    rw [hz, hL]
  · rw [if_neg ht]
    rw [segNum_of_ne m seg hne]
    rw [segNum_of_ne m
      (ChainSegment.mk seg.start seg.head (if seg.tail = 0 then m - 1 else seg.tail - 1)) hne]
    dsimp only
    split_ifs <;> omega

/-- removeSeg drops exactly the oldest element from the observable
content. -/
theorem segContents_removeSeg (m : Nat) (elems : Nat → Element) (seg : ChainSegment)
    (hm : 0 < m) (hne : seg.head ≠ SEGMENT_EMPTY) (h1 : seg.head < m) (h2 : seg.tail < m) :
    segContents m elems (removeSeg m seg) = (segContents m elems seg).dropLast := by
  rw [List.dropLast_eq_take]
  have hlen : (segContents m elems seg).length = segNum m seg := by
    simp [segContents]
  rw [hlen]
  unfold segContents
  rw [← List.map_take, List.take_range, Nat.min_eq_left (by omega)]
  rw [segNum_removeSeg m seg hm hne h1 h2]
  by_cases ht : seg.tail = seg.head
  · have hL : segNum m seg = 1 := by
      rw [segNum_of_ne m seg hne]
      split_ifs <;> omega
    rw [hL]
    simp
  · unfold removeSeg
    rw [if_neg ht]

/-- C8: removing from an already empty chain is a benign no-op returning
the state unchanged (the consistent EmptyChain policy of the spec), and
removing from a non-empty chain removes exactly the oldest (tail) element:
the observable content loses its last entry and the count drops by one;
the operation is never a hard failure for a valid chain index. -/
theorem C8_remove_oldest_or_noop (s : PUBillboardChain) (c : Nat) (hwf : WF s)
    (hc : c < s._chainCount) :
    (getNumChainElements s c = 0 → removeChainElement s c = Except.ok s) ∧
      (0 < getNumChainElements s c →
        removeChainElement s c = Except.ok (removeOk s c) ∧
          chainContents (removeOk s c) c = (chainContents s c).dropLast ∧
          getNumChainElements (removeOk s c) c = getNumChainElements s c - 1) := by
  obtain ⟨hm, hE, hsegs⟩ := hwf
  have hcle : ¬ s._chainCount ≤ c := by omega
  constructor
  · intro h0
    unfold removeChainElement
    rw [if_neg hcle, if_pos ((segNum_eq_zero _ _).mp h0)]
  · intro hpos
    have hne : (s._chainSegmentList c).head ≠ SEGMENT_EMPTY := by
      intro hEq
      unfold getNumChainElements at hpos
      rw [(segNum_eq_zero _ _).mpr hEq] at hpos
      omega
    have hb : (s._chainSegmentList c).head < s._maxElementsPerChain ∧
        (s._chainSegmentList c).tail < s._maxElementsPerChain := by
      rcases (hsegs c hc).2 with ⟨ha, _⟩ | ⟨ha, hb⟩
      · exact absurd ha hne
      · exact ⟨ha, hb⟩
    have hsegsapply : (removeOk s c)._chainSegmentList c =
        removeSeg s._maxElementsPerChain (s._chainSegmentList c) := by
      simp [removeOk, removeChainElement, hcle, hne]
    have helems : (removeOk s c)._chainElementList = s._chainElementList := by
      simp [removeOk, removeChainElement, hcle, hne]
    have hmaxeq : (removeOk s c)._maxElementsPerChain = s._maxElementsPerChain := by
      simp [removeOk, removeChainElement, hcle, hne]
    refine ⟨?_, ?_, ?_⟩
    · unfold removeOk removeChainElement
      rw [if_neg hcle, if_neg hne]
    · unfold chainContents
      rw [hmaxeq, helems, hsegsapply]
      exact segContents_removeSeg _ _ _ hm hne hb.1 hb.2
    · unfold getNumChainElements
      rw [hmaxeq, hsegsapply]
      exact segNum_removeSeg _ _ hm hne hb.1 hb.2

/-- Witness for C8 at a concrete input: removing from the two-element
chain 1 of the sample two-chain state succeeds, drops the oldest element
and decrements the count. -/
theorem C8_remove_oldest_or_noop_witness :
    removeChainElement sampleState2 1 = Except.ok (removeOk sampleState2 1) ∧
      chainContents (removeOk sampleState2 1) 1 = (chainContents sampleState2 1).dropLast ∧
      getNumChainElements (removeOk sampleState2 1) 1 = getNumChainElements sampleState2 1 - 1 :=
  (C8_remove_oldest_or_noop sampleState2 1 (by unfold WF SegWF; decide) (by decide)).2 (by decide)

/-- Store slots of distinct chains never alias: the shared store is an
arena of per-chain blocks of size the capacity. -/
theorem slot_ne_of_chain_ne (m i j p q : Nat) (hm : 0 < m) (hij : i ≠ j) (hp : p < m)
    (hq : q < m) : j * m + q ≠ i * m + p := by
  intro hEq
  apply hij
  have hi2 : (i * m + p) / m = i := by
    rw [Nat.mul_comm i m, Nat.mul_add_div hm, Nat.div_eq_of_lt hp, Nat.add_zero]
  have hj2 : (j * m + q) / m = j := by
    rw [Nat.mul_comm j m, Nat.mul_add_div hm, Nat.div_eq_of_lt hq, Nat.add_zero]
  rw [← hi2, ← hj2, hEq]

/-- A wrapped in-window offset stays inside the window. -/
theorem wrapIndex_lt (m x : Nat) (hm : 0 < m) (hx : x < 2 * m) : wrapIndex m x < m := by
  unfold wrapIndex
  split <;> omega

/-- Writing a store slot outside a segment leaves the segment content
untouched. -/
theorem segContents_write_other (m : Nat) (elems : Nat → Element) (e : Element)
    (seg : ChainSegment) (widx : Nat) (j : Nat) (hm : 0 < m) (hsegwf : SegWF m j seg)
    (hw : ∀ r, r < m → seg.start + r ≠ widx) :
    segContents m (fun k => if k = widx then e else elems k) seg = segContents m elems seg := by
  unfold segContents
  apply List.map_congr_left
  intro a ha
  rw [List.mem_range] at ha
  have hne : seg.head ≠ SEGMENT_EMPTY := by
    intro hEq
    rw [(segNum_eq_zero m seg).mpr hEq] at ha
    omega
  obtain ⟨hstart, hdisj⟩ := hsegwf
  rcases hdisj with ⟨h1, _⟩ | ⟨h1, h2⟩
  · exact absurd h1 hne
  · have hnum := segNum_le m j seg hm ⟨hstart, Or.inr ⟨h1, h2⟩⟩
    have hlt : wrapIndex m (seg.head + a) < m := wrapIndex_lt m _ hm (by omega)
    have hx := hw _ hlt
    simp [hx]

/-- The head slot produced by addSeg is inside the window. -/
theorem addSeg_head_lt (m : Nat) (seg : ChainSegment) (hm : 0 < m) (hE : m ≤ SEGMENT_EMPTY)
    (hseg : (seg.head = SEGMENT_EMPTY ∧ seg.tail = SEGMENT_EMPTY) ∨
      (seg.head < m ∧ seg.tail < m)) : (addSeg m seg).head < m := by
  unfold addSeg
  rcases hseg with ⟨ha, hb⟩ | ⟨ha, hb⟩
  · rw [if_pos ha]
    exact hm
  · rw [if_neg (by omega : seg.head ≠ SEGMENT_EMPTY)]
    simp only []
    split_ifs <;> dsimp only <;> omega

/-- addSeg never moves the fixed start offset. -/
theorem addSeg_start (m : Nat) (seg : ChainSegment) : (addSeg m seg).start = seg.start := by
  unfold addSeg
  simp only []
  split_ifs <;> rfl

/-- C7: operations aimed at one chain never disturb another chain: for
distinct valid chain indices, a successful clearChain, addChainElement,
removeChainElement or updateChainElement on the first chain leaves the
second chains element count and observable content unchanged (and a
failed operation produces no state at all, so it changes nothing). -/
theorem C7_chain_isolation (s : PUBillboardChain) (i j : Nat) (hwf : WF s) (hij : i ≠ j)
    (hi : i < s._chainCount) (hj : j < s._chainCount) :
    (∀ s2, clearChain s i = Except.ok s2 →
        getNumChainElements s2 j = getNumChainElements s j ∧
          chainContents s2 j = chainContents s j) ∧
      (∀ e s2, addChainElement s i e = Except.ok s2 →
        getNumChainElements s2 j = getNumChainElements s j ∧
          chainContents s2 j = chainContents s j) ∧
      (∀ s2, removeChainElement s i = Except.ok s2 →
        getNumChainElements s2 j = getNumChainElements s j ∧
          chainContents s2 j = chainContents s j) ∧
      (∀ k e s2, updateChainElement s i k e = Except.ok s2 →
        getNumChainElements s2 j = getNumChainElements s j ∧
          chainContents s2 j = chainContents s j) := by
  obtain ⟨hm, hE, hsegs⟩ := hwf
  have hile : ¬ s._chainCount ≤ i := by omega
  have hji : ¬ (j = i) := fun hEq => hij hEq.symm
  refine ⟨?_, ?_, ?_, ?_⟩
  · intro s2 h
    unfold clearChain at h
    rw [if_neg hile] at h
    injection h with h
    subst h
    constructor
    · simp [getNumChainElements, hji]
    · simp [chainContents, segContents, hji]
  · intro e s2 h
    unfold addChainElement at h
    rw [if_neg hile] at h
    simp only [] at h
    injection h with h
    subst h
    constructor
    · simp [getNumChainElements, hji]
    · unfold chainContents
      dsimp only
      rw [if_neg hji]
      apply segContents_write_other _ _ _ _ _ j hm (hsegs j hj)
      intro r hr
      rw [(hsegs j hj).1, addSeg_start, (hsegs i hi).1]
      exact slot_ne_of_chain_ne s._maxElementsPerChain i j
        (addSeg s._maxElementsPerChain (s._chainSegmentList i)).head r hm hij
        (addSeg_head_lt _ _ hm hE (hsegs i hi).2) hr
  · intro s2 h
    unfold removeChainElement at h
    rw [if_neg hile] at h
    by_cases hne : (s._chainSegmentList i).head = SEGMENT_EMPTY
    · rw [if_pos hne] at h
      injection h with h
      subst h
      exact ⟨rfl, rfl⟩
    · rw [if_neg hne] at h
      injection h with h
      subst h
      constructor
      · simp [getNumChainElements, hji]
      · simp [chainContents, segContents, hji]
  · intro k e s2 h
    unfold updateChainElement at h
    rw [if_neg hile] at h
    by_cases hk : getNumChainElements s i ≤ k
    · rw [if_pos hk] at h
      simp at h
    · rw [if_neg hk] at h
      simp only [] at h
      injection h with h
      subst h
      have hnei : (s._chainSegmentList i).head ≠ SEGMENT_EMPTY := by
        intro hEq
        unfold getNumChainElements at hk
        rw [(segNum_eq_zero _ _).mpr hEq] at hk
        omega
      have hbi : (s._chainSegmentList i).head < s._maxElementsPerChain := by
        rcases (hsegs i hi).2 with ⟨ha, _⟩ | ⟨ha, _⟩
        · exact absurd ha hnei
        · exact ha
      have hnumi := segNum_le s._maxElementsPerChain i (s._chainSegmentList i) hm (hsegs i hi)
      constructor
      · rfl
      · unfold chainContents
        dsimp only
        apply segContents_write_other _ _ _ _ _ j hm (hsegs j hj)
        intro r hr
        rw [(hsegs j hj).1, (hsegs i hi).1]
        refine slot_ne_of_chain_ne s._maxElementsPerChain i j _ r hm hij ?_ hr
        refine wrapIndex_lt _ _ hm ?_
        unfold getNumChainElements at hk
        omega

/-- Witness for C7 at a concrete input: clearing chain 0 of the sample
two-chain state leaves chain 1 with its count and content unchanged. -/
theorem C7_chain_isolation_witness :
    getNumChainElements (clearOk sampleState2 0) 1 = getNumChainElements sampleState2 1 ∧
      chainContents (clearOk sampleState2 0) 1 = chainContents sampleState2 1 :=
  (C7_chain_isolation sampleState2 0 1 (by unfold WF SegWF; decide) (by decide) (by decide)
    (by decide)).1 (clearOk sampleState2 0) rfl

/-- Length of a flattened map is the sum of chunk lengths. -/
theorem length_flatten_map {α β : Type} (f : α → List β) (l : List α) :
    ((l.map f).flatten).length = (l.map fun a => (f a).length).sum := by
  rw [List.length_flatten, List.map_map]
  rfl

/-- Summing a constant over a list. -/
theorem sum_map_const_nat {α : Type} (l : List α) (k : Nat) :
    (l.map fun _ => k).sum = k * l.length := by
  induction l with
  | nil => simp
  | cons a t ih =>
    simp only [List.map_cons, List.sum_cons, ih, List.length_cons]
    rw [Nat.mul_succ]
    omega

/-- A constant factor distributes over a mapped sum. -/
theorem sum_map_mul_nat {α : Type} (l : List α) (g : α → Nat) (k : Nat) :
    (l.map fun a => k * g a).sum = k * (l.map g).sum := by
  induction l with
  | nil => simp
  | cons a t ih => simp [ih, Nat.mul_add]

/-- Length of a flattened map over constant-length chunks. -/
theorem flatten_map_length_const {α β : Type} (l : List α) (f : α → List β) (k : Nat)
    (h : ∀ a ∈ l, (f a).length = k) : ((l.map f).flatten).length = k * l.length := by
  rw [length_flatten_map, List.map_congr_left h, sum_map_const_nat]

/-- One chain writes exactly two vertices per live element. -/
theorem segVertexWrites_length (m : Nat) (elems : Nat → Element) (seg : ChainSegment)
    (vertexPair : Element → VertexInfo × VertexInfo) :
    (segVertexWrites m elems seg vertexPair).length = 2 * segNum m seg := by
  unfold segVertexWrites
  have h := flatten_map_length_const (List.range (segNum m seg))
    (fun i =>
      let p := seg.start + wrapIndex m (seg.head + i)
      [(p * 2, (vertexPair (elems p)).1), (p * 2 + 1, (vertexPair (elems p)).2)])
    2 (fun a ha => rfl)
  rw [List.length_range] at h
  exact h

/-- One chain emits exactly six indices per consecutive element pair. -/
theorem segIndicesU16_length (m : Nat) (seg : ChainSegment) :
    (segIndicesU16 m seg).length = 6 * (segNum m seg - 1) := by
  unfold segIndicesU16
  have h := flatten_map_length_const (List.range (segNum m seg - 1))
    (fun k =>
      let last := seg.start + wrapIndex m (seg.head + k)
      let cur := seg.start + wrapIndex m (seg.head + k + 1)
      [last * 2 % 65536, (last * 2 + 1) % 65536, cur * 2 % 65536,
        (last * 2 + 1) % 65536, (cur * 2 + 1) % 65536, cur * 2 % 65536])
    6 (fun a ha => rfl)
  rw [List.length_range] at h
  exact h

/-- The stored uint16_t indices are the ideal indices reduced modulo
2^16, chunk by chunk. -/
theorem segIndicesU16_eq_mod (m : Nat) (seg : ChainSegment) :
    segIndicesU16 m seg = (segIndices m seg).map (· % 65536) := by
  unfold segIndicesU16 segIndices
  rw [List.map_flatten, List.map_map]
  congr 1

/-- Every index emitted for a chain references one of the two vertex
slots of a live element of that same chain. -/
theorem segIndices_mem_slots (m : Nat) (seg : ChainSegment) :
    ∀ idx ∈ segIndices m seg, idx ∈ segVertexSlots m seg := by
  intro idx h
  unfold segIndices at h
  rw [List.mem_flatten] at h
  obtain ⟨chunk, hchunk, hidx⟩ := h
  rw [List.mem_map] at hchunk
  obtain ⟨k, hk, rfl⟩ := hchunk
  rw [List.mem_range] at hk
  unfold segVertexSlots
  rw [List.mem_flatten]
  simp only [List.mem_cons, List.not_mem_nil, or_false] at hidx
  have hmem : ∀ i, i < segNum m seg →
      [(seg.start + wrapIndex m (seg.head + i)) * 2,
        (seg.start + wrapIndex m (seg.head + i)) * 2 + 1] ∈
        (List.range (segNum m seg)).map fun i =>
          [(seg.start + wrapIndex m (seg.head + i)) * 2,
            (seg.start + wrapIndex m (seg.head + i)) * 2 + 1] := by
    intro i hi
    rw [List.mem_map]
    exact ⟨i, List.mem_range.mpr hi, rfl⟩
  rcases hidx with h | h | h | h | h | h <;> subst h
  · exact ⟨_, hmem k (by omega), by simp⟩
  · exact ⟨_, hmem k (by omega), by simp⟩
  · exact ⟨_, hmem (k + 1) (by omega), by simp [Nat.add_assoc]⟩
  · exact ⟨_, hmem k (by omega), by simp⟩
  · exact ⟨_, hmem (k + 1) (by omega), by simp [Nat.add_assoc]⟩
  · exact ⟨_, hmem (k + 1) (by omega), by simp [Nat.add_assoc]⟩

/-- Every index emitted for a well-formed chain stays inside that chains
exclusive block of vertex slots. -/
theorem segIndices_bounds (m : Nat) (seg : ChainSegment) (c : Nat) (hm : 0 < m)
    (hwfseg : SegWF m c seg) :
    ∀ idx ∈ segIndices m seg, 2 * (c * m) ≤ idx ∧ idx < 2 * (c * m) + 2 * m := by
  intro idx h
  unfold segIndices at h
  rw [List.mem_flatten] at h
  obtain ⟨chunk, hchunk, hidx⟩ := h
  rw [List.mem_map] at hchunk
  obtain ⟨k, hk, rfl⟩ := hchunk
  rw [List.mem_range] at hk
  obtain ⟨hstart, hdisj⟩ := hwfseg
  have hne : seg.head ≠ SEGMENT_EMPTY := by
    intro hEq
    rw [(segNum_eq_zero m seg).mpr hEq] at hk
    omega
  rcases hdisj with ⟨h1, _⟩ | ⟨h1, h2⟩
  · exact absurd h1 hne
  · have hnum := segNum_le m c seg hm ⟨hstart, Or.inr ⟨h1, h2⟩⟩
    have hw1 : wrapIndex m (seg.head + k) < m := wrapIndex_lt m _ hm (by omega)
    have hw2 : wrapIndex m (seg.head + k + 1) < m := wrapIndex_lt m _ hm (by omega)
    simp only [List.mem_cons, List.not_mem_nil, or_false] at hidx
    rcases hidx with h | h | h | h | h | h <;> subst h <;> rw [hstart] <;> omega

/-- C2: after buffer synthesis the vertex buffer holds exactly two
vertices per live element (2 times the total live element count across
all chains), the index buffer holds exactly six indices per consecutive
element pair (6 times the sum over chains of elementCount minus 1,
truncated at 0), and every emitted index references a vertex slot written
for the same chain, inside that chains exclusive slot block, so no
triangle uses vertices from two different chains. -/
theorem C2_buffer_synthesis_counts (s : PUBillboardChain)
    (vertexPair : Element → VertexInfo × VertexInfo) (hwf : WF s) :
    (updateVertexBuffer s vertexPair).length = 2 * totalElements s ∧
      (updateIndexBuffer s).length =
        6 * ((List.range s._chainCount).map fun c => getNumChainElements s c - 1).sum ∧
      (∀ c, c < s._chainCount →
        ∀ idx ∈ segIndices s._maxElementsPerChain (s._chainSegmentList c),
          idx ∈ segVertexSlots s._maxElementsPerChain (s._chainSegmentList c) ∧
            2 * (c * s._maxElementsPerChain) ≤ idx ∧
            idx < 2 * (c * s._maxElementsPerChain) + 2 * s._maxElementsPerChain) := by
  obtain ⟨hm, hE, hsegs⟩ := hwf
  refine ⟨?_, ?_, ?_⟩
  · unfold updateVertexBuffer totalElements
    rw [length_flatten_map]
    rw [List.map_congr_left (fun c h => segVertexWrites_length s._maxElementsPerChain
      s._chainElementList (s._chainSegmentList c) vertexPair)]
    exact sum_map_mul_nat _ _ 2
  · unfold updateIndexBuffer
    rw [length_flatten_map]
    rw [List.map_congr_left (fun c h => segIndicesU16_length s._maxElementsPerChain
      (s._chainSegmentList c))]
    exact sum_map_mul_nat _ _ 6
  · intro c hc idx hidx
    exact ⟨segIndices_mem_slots _ _ idx hidx,
      segIndices_bounds _ _ c hm (hsegs c hc) idx hidx⟩

/-- Witness for C2 at a concrete input: on the sample two-chain state the
vertex write count is twice the total element count and the index count is
six per consecutive pair. -/
theorem C2_buffer_synthesis_counts_witness :
    (updateVertexBuffer sampleState2 sampleVertexPair).length = 2 * totalElements sampleState2 ∧
      (updateIndexBuffer sampleState2).length =
        6 * ((List.range sampleState2._chainCount).map
          fun c => getNumChainElements sampleState2 c - 1).sum :=
  ⟨(C2_buffer_synthesis_counts sampleState2 sampleVertexPair (by unfold WF SegWF; decide)).1,
   (C2_buffer_synthesis_counts sampleState2 sampleVertexPair (by unfold WF SegWF; decide)).2.1⟩

/-- C10: the synthesized triangle indices are stored as unsigned 16-bit
integers (the header declares the index store as a vector of uint16_t), so
every stored index value is the ideal vertex slot reduced modulo 2^16 and
is below 65536: a single draw can address at most 65536 distinct vertex
slots.  In a configuration whose worst-case slot count 2 times capacity
times chain count exceeds 65536 the emitted values actually wrap: the
directly described wideState emits ideal slot 65536 but stores 0. -/
theorem C10_indices_wrap_at_uint16 :
    (∀ s : PUBillboardChain, updateIndexBuffer s = (updateIndexBufferNat s).map (· % 65536)) ∧
      (∀ s : PUBillboardChain, ∀ idx ∈ updateIndexBuffer s, idx < 65536) ∧
      (2 * (wideState._maxElementsPerChain * wideState._chainCount) > 65536 ∧
        (65536 ∈ updateIndexBufferNat wideState) ∧
        (0 ∈ updateIndexBuffer wideState) ∧
        updateIndexBuffer wideState ≠ updateIndexBufferNat wideState) := by
  have heq : ∀ s : PUBillboardChain,
      updateIndexBuffer s = (updateIndexBufferNat s).map (· % 65536) := by
    intro s
    unfold updateIndexBuffer updateIndexBufferNat
    rw [List.map_flatten, List.map_map]
    congr 1
    apply List.map_congr_left
    intro c hc
    exact segIndicesU16_eq_mod s._maxElementsPerChain (s._chainSegmentList c)
  refine ⟨heq, ?_, by decide, by decide, by decide, by decide⟩
  intro s idx hidx
  rw [heq s, List.mem_map] at hidx
  obtain ⟨y, hy, rfl⟩ := hidx
  exact Nat.mod_lt y (by omega)

/-- Witness for C10 at a concrete input: on wideState the stored index
list is the ideal list reduced modulo 2^16, and the stored value 0 (a
member of the buffer) is below 65536. -/
theorem C10_indices_wrap_at_uint16_witness :
    updateIndexBuffer wideState = (updateIndexBufferNat wideState).map (· % 65536) ∧
      (0:Nat) < 65536 :=
  ⟨C10_indices_wrap_at_uint16.1 wideState,
   C10_indices_wrap_at_uint16.2.1 wideState 0 (by decide)⟩

/-- C6: disabling both texture coordinates and vertex colours at once is
auto-corrected with the single documented fallback of force-enabling
vertex colours, so after any call to setUseTextureCoords or
setUseVertexColours the configuration still has a colour source; the
component never reaches a configuration generating vertices with neither a
UV nor a colour source. -/
theorem C6_colour_source_survives_setters (s : PUBillboardChain) (use : Bool) :
    hasColourSource (setUseTextureCoords s use) = true ∧
      hasColourSource (setUseVertexColours s use) = true := by
  cases use <;> cases h : s._useVertexColour <;> cases h2 : s._useTexCoords <;>
    simp [hasColourSource, setUseTextureCoords, setUseVertexColours, h, h2]

/-- C9: render restores every renderer setting it overrides (depth test
enable, depth compare function, cull mode, winding, depth write) to its
value before the call, by save-modify-restore through the renderer state
cache, and it submits no draw call at all when the vertex count or the
index count is zero. -/
theorem C9_render_restores_state_and_skips_empty_draw (s : PUBillboardChain)
    (vertexPair : Element → VertexInfo × VertexInfo) (r overrides : RendererSettings) :
    (render s vertexPair r overrides).2 = r ∧
      ((updateVertexBuffer s vertexPair).length = 0 ∨ (updateIndexBuffer s).length = 0 →
        (render s vertexPair r overrides).1 = []) := by
  constructor
  · unfold render
    simp only []
    split <;> rfl
  · intro h
    unfold render
    simp only []
    rw [if_pos h]

/-- Witness for C9 at a concrete input: a freshly constructed chain has an
empty vertex buffer, so rendering it submits no draw and leaves the
renderer settings untouched. -/
theorem C9_render_restores_state_and_skips_empty_draw_witness :
    (render (mkPUBillboardChain 3 1 true true true) sampleVertexPair
        sampleRendererSettings sampleOverrides).2 = sampleRendererSettings ∧
      (render (mkPUBillboardChain 3 1 true true true) sampleVertexPair
        sampleRendererSettings sampleOverrides).1 = [] :=
  ⟨(C9_render_restores_state_and_skips_empty_draw (mkPUBillboardChain 3 1 true true true)
      sampleVertexPair sampleRendererSettings sampleOverrides).1,
   (C9_render_restores_state_and_skips_empty_draw (mkPUBillboardChain 3 1 true true true)
      sampleVertexPair sampleRendererSettings sampleOverrides).2 (Or.inl (by decide))⟩

/-- C5: out-of-bounds indices fail fast with an OutOfRange condition and
the operation is aborted: addChainElement rejects a chain index at or
beyond the chain count, and updateChainElement rejects an element index at
or beyond the current chain length; no index is silently clamped.  In this
embedding a rejected operation returns an error and produces no successor
state, so it mutates nothing. -/
theorem C5_out_of_range_fails_fast (s : PUBillboardChain) (c i : Nat) (e : Element) :
    (s._chainCount ≤ c → addChainElement s c e = .error .outOfRange) ∧
      (getNumChainElements s c ≤ i → updateChainElement s c i e = .error .outOfRange) := by
  constructor
  · intro h
    unfold addChainElement
    rw [if_pos h]
  · intro h
    unfold updateChainElement
    by_cases hc : s._chainCount ≤ c
    · rw [if_pos hc]
    · rw [if_neg hc, if_pos h]

/-- Witness for C5 at concrete inputs: on a fresh one-chain state, adding
to chain 5 is rejected, and updating element 0 of the empty chain 0 is
rejected. -/
theorem C5_out_of_range_fails_fast_witness :
    addChainElement (mkPUBillboardChain 3 1 true true true) 5 (sampleElement 1) =
        .error .outOfRange ∧
      updateChainElement (mkPUBillboardChain 3 1 true true true) 0 0 (sampleElement 1) =
        .error .outOfRange :=
  ⟨(C5_out_of_range_fails_fast (mkPUBillboardChain 3 1 true true true) 5 0
      (sampleElement 1)).1 (by decide),
   (C5_out_of_range_fails_fast (mkPUBillboardChain 3 1 true true true) 0 0
      (sampleElement 1)).2 (by decide)⟩

/-- C4: for a valid chain index and an element index below the current
chain length, updateChainElement followed immediately by getChainElement
at the same indices returns exactly the stored element, equal in every
field. -/
theorem C4_update_get_roundtrip (s : PUBillboardChain) (c i : Nat) (E : Element)
    (hc : c < s._chainCount) (hi : i < getNumChainElements s c) :
    (updateChainElement s c i E).bind (fun s2 => getChainElement s2 c i) = Except.ok E := by
  have h1 : ¬ s._chainCount ≤ c := by omega
  have h2 : ¬ segNum s._maxElementsPerChain (s._chainSegmentList c) ≤ i := by
    unfold getNumChainElements at hi
    omega
  simp [updateChainElement, getChainElement, getNumChainElements, Except.bind, h1, h2]

/-- Witness for C4 at a concrete input: on a one-element chain, updating
element 0 to E2 and reading element 0 back yields E2. -/
theorem C4_update_get_roundtrip_witness :
    (updateChainElement sampleState1 0 0 (sampleElement 2)).bind
        (fun s2 => getChainElement s2 0 0) = Except.ok (sampleElement 2) :=
  C4_update_get_roundtrip sampleState1 0 0 (sampleElement 2) (by decide) (by decide)

end PUBillboardChain

end ax
